import Mathlib

/-!
# Verification of the BusTub-style storage engine against its specification

This file gives a shallow embedding, in Lean 4, of the parts of the C++
source that the specification's claims talk about:

* the lock manager (`lock_manager.cpp`): lock modes, the grant check
  `GrantLock`, the isolation-level gates of `LockTable` / `LockRow`, the
  lock-upgrade path, and the (stubbed) deadlock-detection thread body;
* the LRU-K replacer (`lru_k_replacer.cpp`): `RecordAccess`, `SetEvictable`
  and `Evict` over the young/old list representation;
* the in-memory extendible hash table (`extendible_hash_table.cpp`, both
  variants present in the repository), in particular `Bucket::Insert`;
* the B+ tree (`b_plus_tree.cpp`, `b_plus_tree_leaf_page.cpp`,
  `b_plus_tree_internal_page.cpp`, `b_plus_tree_page.cpp`): page-level
  operations, `Insert` with splits, `Remove` with coalesce/redistribute,
  and the index iterator with its equality operator.

C++ `std::hash<int>` is the identity, keys and values are embedded as
natural numbers, machine integers that can be negative (`frame_id_t`) as
`Int`.  `std::list` / flexible arrays become Lean lists; `unordered_map`
becomes an association list looked up by key.  Pointer identity of
`std::shared_ptr<LockRequest>` objects is embedded as a `tag` field.
Functions that throw become functions into `Option` / an outcome type
recording the thrown abort reason; condition-variable waits surface as a
`blocked` outcome.  All definitions are executable, so concrete scenarios
evaluate by `decide`.
-/

namespace LockMgr

/-- `LockManager::LockMode` (lock_manager.h). -/
inductive LockMode
  | IS | IX | S | SIX | X
deriving DecidableEq, Repr

/-- `TransactionState` (transaction.h). -/
inductive TxnState
  | GROWING | SHRINKING | COMMITTED | ABORTED
deriving DecidableEq, Repr

/-- `IsolationLevel` (transaction.h). -/
inductive IsoLevel
  | READ_UNCOMMITTED | READ_COMMITTED | REPEATABLE_READ
deriving DecidableEq, Repr

/-- `AbortReason` (transaction.h), restricted to the reasons the embedded
    lock-acquisition paths can throw. -/
inductive AbortReason
  | LOCK_SHARED_ON_READ_UNCOMMITTED
  | LOCK_ON_SHRINKING
  | UPGRADE_CONFLICT
  | INCOMPATIBLE_UPGRADE
  | TABLE_LOCK_NOT_PRESENT
  | ATTEMPTED_INTENTION_LOCK_ON_ROW
deriving DecidableEq, Repr

/-- `LockManager::LockRequest`.  `tag` embeds the identity of the C++
    `shared_ptr<LockRequest>` object (used by the pointer comparison
    `lock_request.get() != lr.get()` in `GrantLock`). -/
structure LockRequest where
  tag : Nat
  txn_id : Nat
  mode : LockMode
  granted : Bool
deriving DecidableEq, Repr

/-- `LockManager::LockRequestQueue`: the request list and the in-progress
    upgrade marker `upgrading_` (`INVALID_TXN_ID` becomes `none`). -/
structure LockRequestQueue where
  requests : List LockRequest
  upgrading : Option Nat
deriving DecidableEq, Repr

/-- The transaction fields the lock manager reads and writes: id, state,
    isolation level, the five table lock sets and the two row lock sets
    (`transaction.h`). -/
structure Txn where
  id : Nat
  state : TxnState
  iso : IsoLevel
  sharedTableLockSet : List Nat
  exclusiveTableLockSet : List Nat
  intentionSharedTableLockSet : List Nat
  intentionExclusiveTableLockSet : List Nat
  sharedIntentionExclusiveTableLockSet : List Nat
  sharedRowLockSet : List (Nat × Nat)
  exclusiveRowLockSet : List (Nat × Nat)
deriving DecidableEq, Repr

/-- The granted-mode compatibility test of `LockManager::GrantLock`
    (lock_manager.cpp): given the requested mode and the mode of one
    already-granted request `lr`, the `switch` decides whether the pair is
    compatible (`break`) or not (`return false`). -/
def grantCompat (req lr : LockMode) : Bool :=
  match req with
  | .S => !(lr == .IX || lr == .SIX || lr == .X)
  | .X => false
  | .IS => !(lr == .X)
  | .IX => !(lr == .S || lr == .SIX || lr == .X)
  | .SIX => lr == .IS

/-- `LockManager::GrantLock`: walk the queue; an incompatible granted
    request denies; the first ungranted request decides — grant iff it is
    the request under test (pointer identity, embedded by `tag`); an empty
    remainder denies. -/
def grantLock (req : LockRequest) : List LockRequest → Bool
  | [] => false
  | lr :: rest =>
    if lr.granted then
      if grantCompat req.mode lr.mode then grantLock req rest else false
    else if lr.tag != req.tag then false
    else true

/-- The legal upgrade transitions checked at step 3.3 of
    `LockManager::LockTable` / step 5 of `LockManager::LockRow`:
    IS→{S,X,IX,SIX}, S→{X,SIX}, IX→{X,SIX}, SIX→X. -/
def upgradeAllowed (held req : LockMode) : Bool :=
  (held == .IS && (req == .S || req == .X || req == .IX || req == .SIX)) ||
  (held == .S && (req == .X || req == .SIX)) ||
  (held == .IX && (req == .X || req == .SIX)) ||
  (held == .SIX && req == .X)

/-- Step 1 of `LockManager::LockTable`: the isolation-level and
    transaction-state gate.  Note all three branches of the table path
    throw `LOCK_SHARED_ON_READ_UNCOMMITTED` in the source. -/
def tableGate (iso : IsoLevel) (st : TxnState) (m : LockMode) : Option AbortReason :=
  match iso with
  | .READ_UNCOMMITTED =>
    if m == .S || m == .IS || m == .SIX then some .LOCK_SHARED_ON_READ_UNCOMMITTED
    else if st == .SHRINKING && (m == .X || m == .IX) then
      some .LOCK_SHARED_ON_READ_UNCOMMITTED
    else none
  | .READ_COMMITTED =>
    if st == .SHRINKING && m != .IS && m != .S then
      some .LOCK_SHARED_ON_READ_UNCOMMITTED
    else none
  | .REPEATABLE_READ =>
    if st == .SHRINKING then some .LOCK_SHARED_ON_READ_UNCOMMITTED else none

/-- Step 2 of `LockManager::LockRow`: the same gate, but the shrinking
    branches throw `LOCK_ON_SHRINKING` in the row path. -/
def rowGate (iso : IsoLevel) (st : TxnState) (m : LockMode) : Option AbortReason :=
  match iso with
  | .READ_UNCOMMITTED =>
    if m == .S || m == .IS || m == .SIX then some .LOCK_SHARED_ON_READ_UNCOMMITTED
    else if st == .SHRINKING && (m == .X || m == .IX) then some .LOCK_ON_SHRINKING
    else none
  | .READ_COMMITTED =>
    if st == .SHRINKING && m != .IS && m != .S then some .LOCK_ON_SHRINKING
    else none
  | .REPEATABLE_READ =>
    if st == .SHRINKING then some .LOCK_ON_SHRINKING else none

/-- Set-insert on the list embedding of `std::unordered_set`. -/
def setInsert (s : List Nat) (x : Nat) : List Nat :=
  if s.contains x then s else x :: s

/-- Set-insert for the row lock sets (`(oid, rid)` pairs). -/
def setInsertPair (s : List (Nat × Nat)) (x : Nat × Nat) : List (Nat × Nat) :=
  if s.contains x then s else x :: s

/-- `LockManager::InsertOrDeleteTableLockSet`: route the table id into the
    lock set matching the request's mode. -/
def insertOrDeleteTableLockSet (txn : Txn) (m : LockMode) (oid : Nat) (ins : Bool) : Txn :=
  match m with
  | .S =>
    if ins then { txn with sharedTableLockSet := setInsert txn.sharedTableLockSet oid }
    else { txn with sharedTableLockSet := txn.sharedTableLockSet.filter (· != oid) }
  | .X =>
    if ins then { txn with exclusiveTableLockSet := setInsert txn.exclusiveTableLockSet oid }
    else { txn with exclusiveTableLockSet := txn.exclusiveTableLockSet.filter (· != oid) }
  | .IS =>
    if ins then
      { txn with intentionSharedTableLockSet := setInsert txn.intentionSharedTableLockSet oid }
    else
      { txn with intentionSharedTableLockSet := txn.intentionSharedTableLockSet.filter (· != oid) }
  | .IX =>
    if ins then
      { txn with intentionExclusiveTableLockSet := setInsert txn.intentionExclusiveTableLockSet oid }
    else
      { txn with intentionExclusiveTableLockSet :=
          txn.intentionExclusiveTableLockSet.filter (· != oid) }
  | .SIX =>
    if ins then
      { txn with sharedIntentionExclusiveTableLockSet :=
          setInsert txn.sharedIntentionExclusiveTableLockSet oid }
    else
      { txn with sharedIntentionExclusiveTableLockSet :=
          txn.sharedIntentionExclusiveTableLockSet.filter (· != oid) }

/-- `LockManager::InsertOrDeleteRowLockSet`: only S and X touch the row
    lock sets; intention modes are no-ops. -/
def insertOrDeleteRowLockSet (txn : Txn) (m : LockMode) (oid rid : Nat) (ins : Bool) : Txn :=
  match m with
  | .S =>
    if ins then { txn with sharedRowLockSet := setInsertPair txn.sharedRowLockSet (oid, rid) }
    else { txn with sharedRowLockSet := txn.sharedRowLockSet.filter (· != (oid, rid)) }
  | .X =>
    if ins then { txn with exclusiveRowLockSet := setInsertPair txn.exclusiveRowLockSet (oid, rid) }
    else { txn with exclusiveRowLockSet := txn.exclusiveRowLockSet.filter (· != (oid, rid)) }
  | _ => txn

/-- The upgrade path of `LockTable` / `LockRow` inserts the fresh request
    in front of the first ungranted request (the `lr_iter` scan). -/
def insertBeforeFirstUngranted (req : LockRequest) : List LockRequest → List LockRequest
  | [] => [req]
  | lr :: rest =>
    if lr.granted then lr :: insertBeforeFirstUngranted req rest
    else req :: lr :: rest

/-- Mark the request with the given tag granted (`granted_ = true`). -/
def setGranted (tag : Nat) (l : List LockRequest) : List LockRequest :=
  l.map fun r => if r.tag == tag then { r with granted := true } else r

/-- The immediate outcome of one `LockTable` / `LockRow` call: a thrown
    `TransactionAbortException` (the transaction already set to ABORTED),
    a boolean return, or parking on the queue's condition variable with
    the request enqueued ungranted. -/
inductive LockOutcome
  | thrown (reason : AbortReason) (txn : Txn) (queue : LockRequestQueue)
  | ret (b : Bool) (txn : Txn) (queue : LockRequestQueue)
  | blocked (txn : Txn) (queue : LockRequestQueue)
deriving DecidableEq, Repr

/-- `LockManager::LockTable` on one table's request queue, up to the first
    suspension point.  `newTag` is the identity of the `LockRequest`
    object a `make_shared` would allocate.  Mirrors, in order: the
    isolation gate (step 1), the scan for an existing request by this
    transaction (step 3) with the same-mode early return (3.1), the
    upgrade-conflict check (3.2), the legal-transition check (3.3), the
    replacement of the old request and first grant attempt (3.4–3.6), and
    otherwise the new-request path (step 4). -/
def lockTable (txn : Txn) (m : LockMode) (oid : Nat) (q : LockRequestQueue)
    (newTag : Nat) : LockOutcome :=
  match tableGate txn.iso txn.state m with
  | some r => .thrown r { txn with state := .ABORTED } q
  | none =>
    match q.requests.find? (fun r => r.txn_id == txn.id) with
    | some r =>
      if r.mode == m then .ret true txn q
      else if q.upgrading.isSome then
        .thrown .LOCK_SHARED_ON_READ_UNCOMMITTED { txn with state := .ABORTED } q
      else if !upgradeAllowed r.mode m then
        .thrown .INCOMPATIBLE_UPGRADE { txn with state := .ABORTED } q
      else
        let txn1 := insertOrDeleteTableLockSet txn r.mode oid false
        let upReq : LockRequest := ⟨newTag, txn.id, m, false⟩
        let reqs1 := insertBeforeFirstUngranted upReq (q.requests.filter (fun x => x.tag != r.tag))
        let q1 : LockRequestQueue := ⟨reqs1, some txn.id⟩
        if grantLock upReq reqs1 then
          .ret true (insertOrDeleteTableLockSet txn1 m oid true) ⟨setGranted newTag reqs1, none⟩
        else .blocked txn1 q1
    | none =>
      let req : LockRequest := ⟨newTag, txn.id, m, false⟩
      let reqs1 := q.requests ++ [req]
      if grantLock req reqs1 then
        .ret true (insertOrDeleteTableLockSet txn m oid true) ⟨setGranted newTag reqs1, q.upgrading⟩
      else .blocked txn ⟨reqs1, q.upgrading⟩

/-- `LockManager::LockRow` on one row's request queue, up to the first
    suspension point: the intention-mode check (step 1), the row gate
    (step 2), the table-lock precondition for X (step 3), then the same
    upgrade / new-request logic as `lockTable`, with the row-path abort
    reasons and row lock sets. -/
def lockRow (txn : Txn) (m : LockMode) (oid rid : Nat) (q : LockRequestQueue)
    (newTag : Nat) : LockOutcome :=
  if m == .IX || m == .IS || m == .SIX then
    .thrown .ATTEMPTED_INTENTION_LOCK_ON_ROW { txn with state := .ABORTED } q
  else
    match rowGate txn.iso txn.state m with
    | some r => .thrown r { txn with state := .ABORTED } q
    | none =>
      if m == .X &&
          !(txn.exclusiveTableLockSet.contains oid ||
            txn.intentionExclusiveTableLockSet.contains oid ||
            txn.sharedIntentionExclusiveTableLockSet.contains oid) then
        .thrown .TABLE_LOCK_NOT_PRESENT { txn with state := .ABORTED } q
      else
        match q.requests.find? (fun r => r.txn_id == txn.id) with
        | some r =>
          if r.mode == m then .ret true txn q
          else if q.upgrading.isSome then
            .thrown .UPGRADE_CONFLICT { txn with state := .ABORTED } q
          else if !upgradeAllowed r.mode m then
            .thrown .INCOMPATIBLE_UPGRADE { txn with state := .ABORTED } q
          else
            let txn1 := insertOrDeleteRowLockSet txn r.mode oid rid false
            let upReq : LockRequest := ⟨newTag, txn.id, m, false⟩
            let reqs1 :=
              insertBeforeFirstUngranted upReq (q.requests.filter (fun x => x.tag != r.tag))
            if grantLock upReq reqs1 then
              .ret true (insertOrDeleteRowLockSet txn1 m oid rid true)
                ⟨setGranted newTag reqs1, none⟩
            else .blocked txn1 ⟨reqs1, some txn.id⟩
        | none =>
          let req : LockRequest := ⟨newTag, txn.id, m, false⟩
          let reqs1 := q.requests ++ [req]
          if grantLock req reqs1 then
            .ret true (insertOrDeleteRowLockSet txn m oid rid true)
              ⟨setGranted newTag reqs1, q.upgrading⟩
          else .blocked txn ⟨reqs1, q.upgrading⟩

/-- The lock-table state visible to the deadlock detector: all table and
    row request queues and every transaction's state. -/
structure LMState where
  tableQueues : List (Nat × LockRequestQueue)
  rowQueues : List ((Nat × Nat) × LockRequestQueue)
  txnStates : List (Nat × TxnState)
deriving DecidableEq, Repr

/-- The wait-for edges of one queue, as the claim defines them: one edge
    from each transaction with an ungranted request to each transaction
    with a granted request in the same queue. -/
def queueEdges (q : LockRequestQueue) : List (Nat × Nat) :=
  (q.requests.filter (fun r => !r.granted)).flatMap fun w =>
    (q.requests.filter (fun r => r.granted)).map fun g => (w.txn_id, g.txn_id)

/-- The wait-for graph over all table and row queues. -/
def waitForEdges (s : LMState) : List (Nat × Nat) :=
  (s.tableQueues.map (·.2) ++ s.rowQueues.map (·.2)).flatMap queueEdges

/-- One detection interval of `LockManager::RunCycleDetection` as the
    claim's cited source defines it (extendible_hash_table.cpp:646-652):
    the thread sleeps for `cycle_detection_interval` and executes an empty
    block marked `TODO(students): detect deadlock`, so the lock-table
    state is returned unchanged. -/
def runCycleDetectionInterval (s : LMState) : LMState := s

end LockMgr

namespace LRUK

/-- Lookup with default in the association-list embedding of
    `std::unordered_map` (`operator[]` defaults missing keys). -/
def alGetD (l : List (Int × Nat)) (key : Int) : Nat :=
  match l.find? (fun p => p.1 == key) with
  | some p => p.2
  | none => 0

/-- Boolean-valued map lookup (for `is_evictable_`). -/
def alGetB (l : List (Int × Bool)) (key : Int) : Bool :=
  match l.find? (fun p => p.1 == key) with
  | some p => p.2
  | none => false

/-- Map update (insert or overwrite). -/
def alSetN (l : List (Int × Nat)) (key : Int) (v : Nat) : List (Int × Nat) :=
  match l with
  | [] => [(key, v)]
  | p :: rest => if p.1 == key then (key, v) :: rest else p :: alSetN rest key v

/-- Map update for the boolean map. -/
def alSetB (l : List (Int × Bool)) (key : Int) (v : Bool) : List (Int × Bool) :=
  match l with
  | [] => [(key, v)]
  | p :: rest => if p.1 == key then (key, v) :: rest else p :: alSetB rest key v

/-- `LRUKReplacer` state (lru_k_replacer.h / lru_k_replacer.cpp, the
    young/old variant): frames accessed fewer than `k` times live in
    `young_list` (pushed at the front on first access, so the front is the
    newest and the back the oldest), frames accessed at least `k` times in
    `old_list` (most-recent-first).  `young_map_` / `old_map_` are iterator
    caches into the lists and need no separate embedding.  Frame ids are
    `frame_id_t`, a machine int, hence `Int`. -/
structure Replacer where
  replacer_size : Nat
  k : Nat
  curr_size : Nat
  young_list : List Int
  old_list : List Int
  access_count : List (Int × Nat)
  is_evictable : List (Int × Bool)
deriving DecidableEq, Repr

/-- `LRUKReplacer::LRUKReplacer(num_frames, k)`. -/
def Replacer.init (num_frames k : Nat) : Replacer :=
  ⟨num_frames, k, 0, [], [], [], []⟩

/-- `LRUKReplacer::Evict`: nothing evictable if `curr_size_` is zero;
    otherwise scan the young list from the back (`rbegin`, oldest first)
    for an evictable frame, then the old list from the back; on success
    erase the frame from its list, zero its access count, clear its
    evictable flag, decrement `curr_size_` and return the frame. -/
def evict (s : Replacer) : Option (Int × Replacer) :=
  if s.curr_size = 0 then none
  else
    match s.young_list.reverse.find? (fun f => alGetB s.is_evictable f) with
    | some f =>
      some (f, { s with young_list := s.young_list.erase f,
                        access_count := alSetN s.access_count f 0,
                        is_evictable := alSetB s.is_evictable f false,
                        curr_size := s.curr_size - 1 })
    | none =>
      match s.old_list.reverse.find? (fun f => alGetB s.is_evictable f) with
      | some f =>
        some (f, { s with old_list := s.old_list.erase f,
                          access_count := alSetN s.access_count f 0,
                          is_evictable := alSetB s.is_evictable f false,
                          curr_size := s.curr_size - 1 })
      | none => none

/-- `LRUKReplacer::RecordAccess`: the guard
    `frame_id > static_cast<int>(replacer_size_)` throws (`none`);
    otherwise increment the access count; on reaching `k` move the frame
    to the front of the old list (removing it from the young list if
    present), on a first access push it at the front of the young list, on
    further accesses beyond `k` move it to the front of the old list;
    counts strictly between 1 and `k` leave the lists untouched (FIFO). -/
def recordAccess (s : Replacer) (frame_id : Int) : Option Replacer :=
  if frame_id > (s.replacer_size : Int) then none
  else
    let c := alGetD s.access_count frame_id + 1
    let s := { s with access_count := alSetN s.access_count frame_id c }
    if c = s.k then
      let s := { s with old_list := frame_id :: s.old_list }
      if s.young_list.contains frame_id then
        some { s with young_list := s.young_list.erase frame_id }
      else some s
    else if c = 1 then some { s with young_list := frame_id :: s.young_list }
    else if c > s.k then
      some { s with old_list := frame_id :: s.old_list.erase frame_id }
    else some s

/-- `LRUKReplacer::SetEvictable`: same overflow guard; a frame never
    accessed is a silent no-op; otherwise adjust `curr_size_` by the flag
    transition and store the flag. -/
def setEvictable (s : Replacer) (frame_id : Int) (flag : Bool) : Option Replacer :=
  if frame_id > (s.replacer_size : Int) then none
  else if alGetD s.access_count frame_id = 0 then some s
  else
    let old := alGetB s.is_evictable frame_id
    let size1 := if !old && flag then s.curr_size + 1
                 else if old && !flag then s.curr_size - 1
                 else s.curr_size
    some { s with curr_size := size1, is_evictable := alSetB s.is_evictable frame_id flag }

/-- The spec's LRU-K eviction scenario: `k = 2`, three frames `A,B,C`
    embedded as `0,1,2`; record accesses `A, B, C, A`; mark all three
    evictable; then evict three times, collecting the evicted frames. -/
def lrukScenario : Option (Int × Int × Int) := do
  let s0 := Replacer.init 3 2
  let s1 ← recordAccess s0 0
  let s2 ← recordAccess s1 1
  let s3 ← recordAccess s2 2
  let s4 ← recordAccess s3 0
  let s5 ← setEvictable s4 0 true
  let s6 ← setEvictable s5 1 true
  let s7 ← setEvictable s6 2 true
  let (f1, s8) ← evict s7
  let (f2, s9) ← evict s8
  let (f3, _) ← evict s9
  pure (f1, f2, f3)

end LRUK

namespace EHT

/-- One bucket of the extendible hash table: its capacity `size_`, local
    depth `depth_`, and the `std::list` of key/value pairs.  Keys and
    values are `int` in the instantiated template, embedded as `Nat`
    (`std::hash<int>` is the identity). -/
structure Bucket where
  size : Nat
  depth : Nat
  items : List (Nat × Nat)
deriving DecidableEq, Repr

/-- `Bucket::IsFull`.  Modelled from the spec: the accessor lives in the
    header `extendible_hash_table.h`, which is not among the source files;
    per the spec a bucket "holds up to `B` key/value pairs", so full means
    the list has reached the capacity. -/
def Bucket.full (b : Bucket) : Bool := b.items.length == b.size

/-- `Bucket::Find` (both variants scan the list for the key). -/
def Bucket.findVal (b : Bucket) (key : Nat) : Option Nat :=
  (b.items.find? (fun p => p.1 == key)).map (·.2)

/-- `Bucket::Insert` of the variant in
    src/storage/index/index_iterator.cpp (second document, lines
    274-289): a full bucket refuses; otherwise the duplicate scan iterates
    the list BY VALUE (`for(auto k : list_)`), so `k.second = value`
    writes into a copy of the pair and the stored list is unchanged, yet
    the function returns `true`; a genuinely new key is appended. -/
def Bucket.insertCopyScan (b : Bucket) (key v : Nat) : Bucket × Bool :=
  if b.full then (b, false)
  else
    match b.items.find? (fun p => p.1 == key) with
    | some _ => (b, true)
    | none => ({ b with items := b.items ++ [(key, v)] }, true)

/-- `Bucket::Insert` of the variant in
    src/container/hash/extendible_hash_table.cpp (lines 183-200): the
    duplicate scan iterates BY REFERENCE (`for(auto &p : list_)`) and
    really updates the stored pair; only then is fullness checked. -/
def Bucket.insertRefScan (b : Bucket) (key v : Nat) : Bucket × Bool :=
  match b.items.find? (fun p => p.1 == key) with
  | some _ =>
    ({ b with items := b.items.map fun p => if p.1 == key then (key, v) else p }, true)
  | none =>
    if b.full then (b, false)
    else ({ b with items := b.items ++ [(key, v)] }, true)

/-- `ExtendibleHashTable` state: global depth, bucket capacity, number of
    buckets, and the directory.  The directory's `shared_ptr<Bucket>`
    aliasing is embedded by storing bucket ids in `dir` and the buckets
    themselves in an id-indexed store: two slots alias exactly when they
    hold the same id. -/
structure HashTable where
  global_depth : Nat
  bucket_size : Nat
  num_buckets : Nat
  dir : List Nat
  store : List (Nat × Bucket)
  nextBucketId : Nat
deriving DecidableEq, Repr

/-- `ExtendibleHashTable(bucket_size)`: depth 0, one empty bucket. -/
def HashTable.init (bucket_size : Nat) : HashTable :=
  ⟨0, bucket_size, 1, [0], [(0, ⟨bucket_size, 0, []⟩)], 1⟩

/-- `IndexOf`: `hash(key) & ((1 << global_depth) - 1)`; for `int` keys the
    standard hash is the identity. -/
def HashTable.indexOf (t : HashTable) (key : Nat) : Nat :=
  key % 2 ^ t.global_depth

/-- Fetch a bucket by id from the store (ids are always present). -/
def HashTable.bucketAt (t : HashTable) (bid : Nat) : Bucket :=
  match t.store.find? (fun p => p.1 == bid) with
  | some p => p.2
  | none => ⟨t.bucket_size, 0, []⟩

/-- Overwrite a bucket in the store. -/
def HashTable.putBucket (t : HashTable) (bid : Nat) (b : Bucket) : HashTable :=
  { t with store := t.store.map fun p => if p.1 == bid then (bid, b) else p }

/-- The bucket id the directory assigns to `key`. -/
def HashTable.dirBucketId (t : HashTable) (key : Nat) : Nat :=
  t.dir.getD (t.indexOf key) 0

/-- `ExtendibleHashTable::Find` (variant of index_iterator.cpp): locate
    the slot's bucket and scan it. -/
def HashTable.findVal (t : HashTable) (key : Nat) : Option Nat :=
  (t.bucketAt (t.dirBucketId key)).findVal key

/-- One iteration of the split loop in `ExtendibleHashTable::Insert`
    (index_iterator.cpp variant, lines 185-237): if the key is already in
    the full target bucket, update it in place (this loop iterates by
    reference) and stop; otherwise double the directory when the local
    depth has reached the global depth, split the full bucket into two
    fresh buckets of local depth `d+1` partitioned by bit `d` of the hash,
    and rewrite every aliasing directory slot. -/
inductive SplitStep
  | updated (t : HashTable)
  | again (t : HashTable)

def HashTable.splitOnce (t : HashTable) (key v : Nat) : SplitStep :=
  let bid := t.dirBucketId key
  let b := t.bucketAt bid
  if (b.items.find? (fun p => p.1 == key)).isSome then
    .updated (t.putBucket bid
      { b with items := b.items.map fun p => if p.1 == key then (key, v) else p })
  else
    let t :=
      if b.depth == t.global_depth then
        { t with global_depth := t.global_depth + 1, dir := t.dir ++ t.dir }
      else t
    let newMask := 2 ^ b.depth
    let items0 := b.items.filter (fun p => p.1 / newMask % 2 == 0)
    let items1 := b.items.filter (fun p => p.1 / newMask % 2 == 1)
    let bid0 := t.nextBucketId
    let bid1 := t.nextBucketId + 1
    let t := { t with
      store := (bid1, ⟨t.bucket_size, b.depth + 1, items1⟩) ::
               (bid0, ⟨t.bucket_size, b.depth + 1, items0⟩) :: t.store,
      nextBucketId := t.nextBucketId + 2,
      num_buckets := t.num_buckets + 1 }
    let dir1 := (List.range t.dir.length).map fun i =>
      if t.dir.getD i 0 == bid then (if i / newMask % 2 == 1 then bid1 else bid0)
      else t.dir.getD i 0
    .again { t with dir := dir1 }

/-- The `while(dir_[IndexOf(key)]->IsFull())` loop, with fuel standing for
    the (unbounded in C++) iteration count; `none` means the fuel ran
    out. -/
def HashTable.insertLoop (key v : Nat) : Nat → HashTable → Option HashTable
  | 0, _ => none
  | fuel + 1, t =>
    if (t.bucketAt (t.dirBucketId key)).full then
      match t.splitOnce key v with
      | .updated t1 => some t1
      | .again t1 => t1.insertLoop key v fuel
    else
      let bid := t.dirBucketId key
      some (t.putBucket bid ((t.bucketAt bid).insertCopyScan key v).1)

/-- `ExtendibleHashTable::Insert` of the index_iterator.cpp variant: a
    non-full target bucket takes the pair directly through
    `Bucket::Insert` (the copy-scanning one); a full bucket goes through
    the split loop, after which the final `Bucket::Insert` appends. -/
def HashTable.insert (t : HashTable) (key v : Nat) (fuel : Nat) : Option HashTable :=
  let bid := t.dirBucketId key
  let b := t.bucketAt bid
  if !b.full then some (t.putBucket bid (b.insertCopyScan key v).1)
  else t.insertLoop key v fuel

end EHT

namespace BPT

abbrev PageId := Nat

/-- A leaf page (`BPlusTreeLeafPage`): `array_` of key/value pairs (kept
    sorted), `max_size_`, `parent_page_id_` and `next_page_id_`
    (`INVALID_PAGE_ID` becomes `none`). -/
structure LeafNode where
  keys : List (Nat × Nat)
  maxSize : Nat
  parent : Option PageId
  next : Option PageId
deriving DecidableEq, Repr

/-- An internal page (`BPlusTreeInternalPage`): `array_` of
    (separator key, child page id) slots — the key of slot 0 is unused and
    carried as stored — plus `max_size_` and `parent_page_id_`. -/
structure InternalNode where
  entries : List (Nat × PageId)
  maxSize : Nat
  parent : Option PageId
deriving DecidableEq, Repr

/-- A `BPlusTreePage` is a leaf or an internal page. -/
inductive BNode
  | leaf (l : LeafNode)
  | internal (n : InternalNode)
deriving DecidableEq, Repr

/-- `BPlusTreePage::GetMinSize` (b_plus_tree_page.cpp): `max_size_ / 2`
    for a leaf, `(max_size_ + 1) / 2` for an internal page. -/
def leafMinSize (maxSize : Nat) : Nat := maxSize / 2

/-- Internal-page half of `BPlusTreePage::GetMinSize`. -/
def internalMinSize (maxSize : Nat) : Nat := (maxSize + 1) / 2

/-- `BPlusTreeLeafPage::KeyIndex`: `std::lower_bound` over the sorted
    `array_`, i.e. the position of the first pair whose key is not below
    the probe — for a sorted list, the length of the strictly-smaller
    prefix. -/
def LeafNode.keyIndex (l : LeafNode) (k : Nat) : Nat :=
  (l.keys.takeWhile (fun p => p.1 < k)).length

/-- `BPlusTreeLeafPage::Insert`: returns the page paired with the
    post-call `GetSize()`.  An append position appends; an exact match
    returns without change; otherwise shift right and place the pair. -/
def LeafNode.insert (l : LeafNode) (k v : Nat) : LeafNode × Nat :=
  let idx := l.keyIndex k
  if idx == l.keys.length then
    ({ l with keys := l.keys ++ [(k, v)] }, l.keys.length + 1)
  else if (l.keys.getD idx (0, 0)).1 == k then (l, l.keys.length)
  else
    ({ l with keys := l.keys.take idx ++ (k, v) :: l.keys.drop idx }, l.keys.length + 1)

/-- `BPlusTreeLeafPage::Lookup`. -/
def LeafNode.lookup (l : LeafNode) (k : Nat) : Option Nat :=
  let idx := l.keyIndex k
  if idx == l.keys.length then none
  else if (l.keys.getD idx (0, 0)).1 != k then none
  else some (l.keys.getD idx (0, 0)).2

/-- `BPlusTreeLeafPage::RemoveAndDeleteRecord`: returns the page paired
    with the post-call `GetSize()`; a missing key leaves the page as is. -/
def LeafNode.removeRecord (l : LeafNode) (k : Nat) : LeafNode × Nat :=
  let idx := l.keyIndex k
  if idx == l.keys.length then (l, l.keys.length)
  else if (l.keys.getD idx (0, 0)).1 != k then (l, l.keys.length)
  else ({ l with keys := l.keys.take idx ++ l.keys.drop (idx + 1) }, l.keys.length - 1)

/-- `BPlusTreeInternalPage::Lookup`: `std::lower_bound` over the keys of
    slots `[1, size)`; past-the-end falls to the last child, an exact hit
    takes its own child, otherwise the predecessor's child. -/
def InternalNode.lookupChild (n : InternalNode) (k : Nat) : PageId :=
  let tail := n.entries.drop 1
  let idx := (tail.takeWhile (fun p => p.1 < k)).length
  if idx == tail.length then (n.entries.getD (n.entries.length - 1) (0, 0)).2
  else if (tail.getD idx (0, 0)).1 == k then (tail.getD idx (0, 0)).2
  else (n.entries.getD idx (0, 0)).2

/-- `BPlusTreeInternalPage::ValueIndex` (`std::find_if`; the length when
    the child is absent, matching `std::distance` to the end). -/
def InternalNode.valueIndex (n : InternalNode) (pid : PageId) : Nat :=
  n.entries.findIdx (fun p => p.2 == pid)

/-- `BPlusTreeInternalPage::ValueAt`. -/
def InternalNode.valueAt (n : InternalNode) (i : Nat) : PageId :=
  (n.entries.getD i (0, 0)).2

/-- `BPlusTreeInternalPage::KeyAt`. -/
def InternalNode.keyAt (n : InternalNode) (i : Nat) : Nat :=
  (n.entries.getD i (0, 0)).1

/-- `BPlusTreeInternalPage::SetKeyAt`. -/
def InternalNode.setKeyAt (n : InternalNode) (i : Nat) (k : Nat) : InternalNode :=
  { n with entries := n.entries.set i (k, n.valueAt i) }

/-- `BPlusTreeInternalPage::InsertNodeAfter`: shift right after the slot
    holding `oldPid` and place the new separator/child pair. -/
def InternalNode.insertNodeAfter (n : InternalNode) (oldPid : PageId) (k : Nat)
    (newPid : PageId) : InternalNode :=
  let idx := n.valueIndex oldPid + 1
  { n with entries := n.entries.take idx ++ (k, newPid) :: n.entries.drop idx }

/-- `BPlusTreeInternalPage::Remove`: shift left over slot `i`. -/
def InternalNode.removeAt (n : InternalNode) (i : Nat) : InternalNode :=
  { n with entries := n.entries.take i ++ n.entries.drop (i + 1) }

/-- The B+ tree: the buffer pool's pages relevant to this index (page id →
    node), the root id stored in the header (`INVALID_PAGE_ID` becomes
    `none`), the next page id `NewPage` would allocate, and the two
    configured maximum sizes. -/
structure Tree where
  pages : List (PageId × BNode)
  root : Option PageId
  nextPage : PageId
  leafMax : Nat
  internalMax : Nat
deriving DecidableEq, Repr

/-- A freshly constructed tree (`root_page_id_ = INVALID_PAGE_ID`).
    Page ids start at 1 (`assert(childPageId > 0)` in the source; page 0
    is the header page). -/
def Tree.empty (leafMax internalMax : Nat) : Tree :=
  ⟨[], none, 1, leafMax, internalMax⟩

/-- `FetchPage` + reinterpret as a tree node. -/
def Tree.getPage (t : Tree) (pid : PageId) : Option BNode :=
  (t.pages.find? (fun p => p.1 == pid)).map (·.2)

/-- Write a node back to its page (insert the page if new). -/
def Tree.setPage (t : Tree) (pid : PageId) (n : BNode) : Tree :=
  if (t.pages.find? (fun p => p.1 == pid)).isSome then
    { t with pages := t.pages.map fun p => if p.1 == pid then (pid, n) else p }
  else { t with pages := t.pages ++ [(pid, n)] }

/-- `SetParentPageId` on whichever node kind the page holds. -/
def Tree.setParent (t : Tree) (pid : PageId) (par : Option PageId) : Tree :=
  match t.getPage pid with
  | some (.leaf l) => t.setPage pid (.leaf { l with parent := par })
  | some (.internal n) => t.setPage pid (.internal { n with parent := par })
  | none => t

/-- The descent loop of `BPlusTree::FindLeaf` from a starting page,
    parameterised by the child chooser (`Lookup(key)` for a keyed search,
    `ValueAt(0)` for `leftMost`, `ValueAt(size-1)` for `rightMost`); fuel
    bounds the loop, which C++ bounds by the tree height. -/
def Tree.findLeafFrom (t : Tree) (chooser : InternalNode → PageId) :
    Nat → PageId → Option PageId
  | 0, _ => none
  | fuel + 1, pid =>
    match t.getPage pid with
    | some (.leaf _) => some pid
    | some (.internal n) => t.findLeafFrom chooser fuel (chooser n)
    | none => none

/-- `FindLeaf` for a key, from the root. -/
def Tree.findLeaf (t : Tree) (k : Nat) : Option PageId :=
  match t.root with
  | none => none
  | some r => t.findLeafFrom (fun n => n.lookupChild k) (t.pages.length + 1) r

/-- `FindLeaf` with `leftMost = true`. -/
def Tree.findLeftmostLeaf (t : Tree) : Option PageId :=
  match t.root with
  | none => none
  | some r => t.findLeafFrom (fun n => n.valueAt 0) (t.pages.length + 1) r

/-- `FindLeaf` with `rightMost = true`. -/
def Tree.findRightmostLeaf (t : Tree) : Option PageId :=
  match t.root with
  | none => none
  | some r =>
    t.findLeafFrom (fun n => n.valueAt (n.entries.length - 1)) (t.pages.length + 1) r

/-- `BPlusTree::StartNewTree`: allocate a page, `Init` it as a leaf with
    no parent, insert the pair, make it the root. -/
def Tree.startNewTree (t : Tree) (k v : Nat) : Tree :=
  let pid := t.nextPage
  let l0 : LeafNode := ⟨[], t.leafMax, none, none⟩
  { t.setPage pid (.leaf (l0.insert k v).1) with root := some pid, nextPage := pid + 1 }

/-- `BPlusTree::InsertIntoParent`: a root splitter gets a fresh root
    populated with `(invalid, old)` and `(key, new)` (`PopulateNewRoot`;
    the unused slot-0 key is 0) and both children reparented; a parent
    with capacity takes the separator by `InsertNodeAfter`; a full parent
    is copied to scratch memory with the separator inserted, split at
    `GetMinSize()` — the low half written back in place, the high half
    moved to a fresh page whose children are reparented (`CopyNFrom`) —
    and the recursion carries the risen key to the grandparent. -/
def Tree.insertIntoParent : Nat → Tree → PageId → Nat → PageId → Tree
  | 0, t, _, _, _ => t
  | fuel + 1, t, oldPid, key, newPid =>
    let oldParent := match t.getPage oldPid with
      | some (.leaf l) => l.parent
      | some (.internal n) => n.parent
      | none => none
    match oldParent with
    | none =>
      let rootPid := t.nextPage
      let rootNode : InternalNode := ⟨[(0, oldPid), (key, newPid)], t.internalMax, none⟩
      let t1 := { t.setPage rootPid (.internal rootNode) with
                    root := some rootPid, nextPage := rootPid + 1 }
      (t1.setParent oldPid (some rootPid)).setParent newPid (some rootPid)
    | some parentPid =>
      match t.getPage parentPid with
      | some (.internal p) =>
        if p.entries.length < t.internalMax then
          t.setPage parentPid (.internal (p.insertNodeAfter oldPid key newPid))
        else
          let copy := p.insertNodeAfter oldPid key newPid
          let splitFrom := internalMinSize t.internalMax
          let kept := copy.entries.take splitFrom
          let moved := copy.entries.drop splitFrom
          let newNodePid := t.nextPage
          let newNode : InternalNode := ⟨moved, t.internalMax, p.parent⟩
          let t1 := { t.setPage newNodePid (.internal newNode) with
                        nextPage := newNodePid + 1 }
          let t2 := moved.foldl (fun acc e => acc.setParent e.2 (some newNodePid)) t1
          let newParentKey := (moved.getD 0 (0, 0)).1
          let t3 := t2.setPage parentPid (.internal { p with entries := kept })
          t3.insertIntoParent fuel parentPid newParentKey newNodePid
      | _ => t

/-- `BPlusTree::InsertIntoLeaf`: insert into the target leaf; an
    unchanged size means a duplicate (return false); a size still below
    `leaf_max_size_` is done; otherwise split — `MoveHalfTo` keeps the
    first `GetMinSize()` pairs and moves the rest to a fresh sibling
    spliced into the leaf chain — and the new sibling's first key rises
    into the parent. -/
def Tree.insertIntoLeaf (t : Tree) (k v : Nat) : Tree × Bool :=
  match t.findLeaf k with
  | none => (t, false)
  | some pid =>
    match t.getPage pid with
    | some (.leaf l) =>
      let res := l.insert k v
      if res.2 == l.keys.length then (t, false)
      else
        let t1 := t.setPage pid (.leaf res.1)
        if res.2 < t.leafMax then (t1, true)
        else
          let node := res.1
          let splitStart := leafMinSize node.maxSize
          let keep := node.keys.take splitStart
          let moved := node.keys.drop splitStart
          let newPid := t1.nextPage
          let newLeaf : LeafNode := ⟨moved, t.leafMax, node.parent, node.next⟩
          let keepLeaf : LeafNode := { node with keys := keep, next := some newPid }
          let t2 := { (t1.setPage pid (.leaf keepLeaf)).setPage newPid (.leaf newLeaf) with
                        nextPage := newPid + 1 }
          let risen := (moved.getD 0 (0, 0)).1
          (t2.insertIntoParent (t2.pages.length + 1) pid risen newPid, true)
    | _ => (t, false)

/-- `BPlusTree::Insert`: an empty tree starts a new root leaf, otherwise
    insert into the target leaf. -/
def Tree.insert (t : Tree) (k v : Nat) : Tree × Bool :=
  match t.root with
  | none => (t.startNewTree k v, true)
  | some _ => t.insertIntoLeaf k v

/-- Fold `Insert` over a list of pairs. -/
def Tree.insertMany (t : Tree) (ps : List (Nat × Nat)) : Tree :=
  ps.foldl (fun acc p => (acc.insert p.1 p.2).1) t

/-- `BPlusTree::AdjustRoot`: an internal root left with a single child
    promotes that child (its parent cleared, the header updated); an
    empty leaf root empties the tree; anything else stands. -/
def Tree.adjustRoot (t : Tree) (pid : PageId) : Tree × Bool :=
  match t.getPage pid with
  | some (.internal n) =>
    if n.entries.length == 1 then
      ({ t.setParent (n.valueAt 0) none with root := some (n.valueAt 0) }, true)
    else (t, false)
  | some (.leaf l) =>
    if l.keys.length == 0 then ({ t with root := none }, true) else (t, false)
  | none => (t, false)

/-- `BPlusTree::Redistribute(neighbor, node, parent, index, from_prev)`:
    move one boundary pair from the sibling into `node` and refresh the
    parent's separator; the internal-page variant threads the parent's
    `middle key` through slot 0 and reparents the moved child. -/
def Tree.redistribute (t : Tree) (neighborPid nodePid parentPid : PageId) (index : Nat)
    (fromPrev : Bool) : Tree :=
  match t.getPage nodePid, t.getPage neighborPid, t.getPage parentPid with
  | some (.leaf node), some (.leaf nb), some (.internal p) =>
    if !fromPrev then
      let item := nb.keys.getD 0 (0, 0)
      let nb1 : LeafNode := { nb with keys := nb.keys.drop 1 }
      let node1 : LeafNode := { node with keys := node.keys ++ [item] }
      let p1 := p.setKeyAt (index + 1) (nb1.keys.getD 0 (0, 0)).1
      ((t.setPage nodePid (.leaf node1)).setPage neighborPid (.leaf nb1)).setPage
        parentPid (.internal p1)
    else
      let item := nb.keys.getD (nb.keys.length - 1) (0, 0)
      let nb1 : LeafNode := { nb with keys := nb.keys.dropLast }
      let node1 : LeafNode := { node with keys := item :: node.keys }
      let p1 := p.setKeyAt index (node1.keys.getD 0 (0, 0)).1
      ((t.setPage nodePid (.leaf node1)).setPage neighborPid (.leaf nb1)).setPage
        parentPid (.internal p1)
  | some (.internal node), some (.internal nb), some (.internal p) =>
    if !fromPrev then
      let nb0 := nb.setKeyAt 0 (p.keyAt (index + 1))
      let item := nb0.entries.getD 0 (0, 0)
      let node1 : InternalNode := { node with entries := node.entries ++ [item] }
      let nb1 : InternalNode := { nb0 with entries := nb0.entries.drop 1 }
      let p1 := p.setKeyAt (index + 1) (nb1.keyAt 0)
      (((t.setParent item.2 (some nodePid)).setPage nodePid
          (.internal node1)).setPage neighborPid (.internal nb1)).setPage
        parentPid (.internal p1)
    else
      let item := nb.entries.getD (nb.entries.length - 1) (0, 0)
      let node0 := node.setKeyAt 0 (p.keyAt index)
      let node1 : InternalNode := { node0 with entries := item :: node0.entries }
      let nb1 : InternalNode := { nb with entries := nb.entries.dropLast }
      let p1 := p.setKeyAt index (node1.keyAt 0)
      (((t.setParent item.2 (some nodePid)).setPage nodePid
          (.internal node1)).setPage neighborPid (.internal nb1)).setPage
        parentPid (.internal p1)
  | _, _, _ => t

/-- The page-moving half of `BPlusTree::Coalesce`: `node.MoveAllTo
    (neighbor)` — for leaves append the donor's pairs and inherit its next
    pointer; for internal pages write the parent's middle key into the
    donor's slot 0, append everything and reparent the moved children
    (`CopyNFrom` at the recipient's current end, the canonical variant). -/
def Tree.moveAllTo (t : Tree) (donorPid recipientPid : PageId) (middleKey : Nat) : Tree :=
  match t.getPage donorPid, t.getPage recipientPid with
  | some (.leaf d), some (.leaf r) =>
    let r1 : LeafNode := { r with keys := r.keys ++ d.keys, next := d.next }
    (t.setPage recipientPid (.leaf r1)).setPage donorPid (.leaf { d with keys := [] })
  | some (.internal d), some (.internal r) =>
    let d0 := d.setKeyAt 0 middleKey
    let r1 : InternalNode := { r with entries := r.entries ++ d0.entries }
    let t1 := d0.entries.foldl (fun acc e => acc.setParent e.2 (some recipientPid)) t
    (t1.setPage recipientPid (.internal r1)).setPage donorPid (.internal { d with entries := [] })
  | _, _ => t

/-- Size of whatever node a page holds. -/
def Tree.sizeOf (t : Tree) (pid : PageId) : Nat :=
  match t.getPage pid with
  | some (.leaf l) => l.keys.length
  | some (.internal n) => n.entries.length
  | none => 0

/-- `GetMinSize()` of whatever node a page holds. -/
def Tree.minSizeOf (t : Tree) (pid : PageId) : Nat :=
  match t.getPage pid with
  | some (.leaf l) => leafMinSize l.maxSize
  | some (.internal n) => internalMinSize n.maxSize
  | none => 0

/-- Parent pointer of whatever node a page holds. -/
def Tree.parentOf (t : Tree) (pid : PageId) : Option PageId :=
  match t.getPage pid with
  | some (.leaf l) => l.parent
  | some (.internal n) => n.parent
  | none => none

/-- `BPlusTree::CoalesceOrRedistribute` with `Coalesce` inlined at its two
    call sites; returns the tree, whether the caller must schedule this
    page for deletion, and the pages this call already scheduled.  In
    order: a size at or above `GetMinSize()` returns untouched; the root
    goes to `AdjustRoot`; a node with a left sibling (`cIndex > 0`)
    borrows from it when it can spare (`Redistribute`, `from_prev`) and
    otherwise merges into it, removing the separator at `cIndex` from the
    parent and recursing on it; the leftmost node plays the same against
    its right sibling (guarded by `cIndex != parent.GetSize() - 1`),
    merging the right sibling into itself and scheduling the sibling. -/
def Tree.coalesceOrRedistribute : Nat → Tree → PageId → Tree × Bool × List PageId
  | 0, t, _ => (t, false, [])
  | fuel + 1, t, pid =>
    if t.sizeOf pid ≥ t.minSizeOf pid then (t, false, [])
    else
      match t.parentOf pid with
      | none =>
        let res := t.adjustRoot pid
        (res.1, res.2, [])
      | some parentPid =>
        match t.getPage parentPid with
        | some (.internal p) =>
          let cIndex := p.valueIndex pid
          if cIndex > 0 then
            let leftPid := p.valueAt (cIndex - 1)
            if t.sizeOf leftPid > t.minSizeOf leftPid then
              (t.redistribute leftPid pid parentPid cIndex true, false, [])
            else
              let t1 := t.moveAllTo pid leftPid (p.keyAt cIndex)
              let t2 := t1.setPage parentPid (.internal (p.removeAt cIndex))
              let res := t2.coalesceOrRedistribute fuel parentPid
              (res.1, true, (if res.2.1 then [parentPid] else []) ++ res.2.2)
          else if cIndex != p.entries.length - 1 then
            let rightPid := p.valueAt (cIndex + 1)
            if t.sizeOf rightPid > t.minSizeOf rightPid then
              (t.redistribute rightPid pid parentPid cIndex false, false, [])
            else
              let needRemoveIndex := p.valueIndex rightPid
              let t1 := t.moveAllTo rightPid pid (p.keyAt needRemoveIndex)
              let t2 := t1.setPage parentPid (.internal (p.removeAt needRemoveIndex))
              let res := t2.coalesceOrRedistribute fuel parentPid
              (res.1, true, rightPid :: ((if res.2.1 then [parentPid] else []) ++ res.2.2))
          else (t, false, [])
        | _ => (t, false, [])

/-- `BPlusTree::Remove`: nothing on an empty tree; descend to the target
    leaf; an unchanged size after `RemoveAndDeleteRecord` means the key
    was absent; otherwise run `CoalesceOrRedistribute` on the leaf and
    finally `DeletePage` everything the operation scheduled. -/
def Tree.removeKey (t : Tree) (k : Nat) : Tree :=
  match t.root with
  | none => t
  | some _ =>
    match t.findLeaf k with
    | none => t
    | some pid =>
      match t.getPage pid with
      | some (.leaf l) =>
        let res := l.removeRecord k
        if res.2 == l.keys.length then t
        else
          let t1 := t.setPage pid (.leaf res.1)
          let res2 := t1.coalesceOrRedistribute (t1.pages.length + 1) pid
          let dels := (if res2.2.1 then [pid] else []) ++ res2.2.2
          { res2.1 with pages := res2.1.pages.filter (fun p => !(dels.contains p.1)) }
      | _ => t

/-- Keys yielded by walking the leaf chain from a page (the iterator's
    `operator++`: through the current leaf, then across `next_page_id_`). -/
def Tree.chainKeysFrom (t : Tree) : Nat → PageId → List Nat
  | 0, _ => []
  | fuel + 1, pid =>
    match t.getPage pid with
    | some (.leaf l) =>
      l.keys.map (·.1) ++
        (match l.next with
         | some np => t.chainKeysFrom fuel np
         | none => [])
    | _ => []

/-- Forward iteration from `Begin()`: every key, leftmost leaf first. -/
def Tree.iterKeys (t : Tree) : List Nat :=
  match t.findLeftmostLeaf with
  | some pid => t.chainKeysFrom (t.pages.length + 1) pid
  | none => []

/-- `IndexIterator` as its equality operator sees it: the `leaf_` pointer
    (`none` embeds the null pointer the empty-tree constructor stores) and
    `index_`. -/
structure Iter where
  leaf : Option PageId
  index : Nat
deriving DecidableEq, Repr

/-- `IndexIterator::operator==` (index_iterator.cpp):
    `leaf_ == nullptr || (leaf_->GetPageId() == itr.leaf_->GetPageId() &&
    index_ == itr.index_)`.  When the left side is non-null and the right
    side is null, `itr.leaf_->GetPageId()` dereferences a null pointer —
    embedded as `none` (no defined boolean result). -/
def iterEq (a b : Iter) : Option Bool :=
  match a.leaf with
  | none => some true
  | some pa =>
    match b.leaf with
    | none => none
    | some pb => some (pa == pb && a.index == b.index)

/-- `BPlusTree::Begin()`: the null iterator on an empty tree, else the
    leftmost leaf at slot 0. -/
def Tree.beginIter (t : Tree) : Iter :=
  match t.root with
  | none => ⟨none, 0⟩
  | some _ =>
    match t.findLeftmostLeaf with
    | some pid => ⟨some pid, 0⟩
    | none => ⟨none, 0⟩

/-- `BPlusTree::End()`: the null iterator on an empty tree, else the
    rightmost leaf at slot `GetSize()`. -/
def Tree.endIter (t : Tree) : Iter :=
  match t.root with
  | none => ⟨none, 0⟩
  | some _ =>
    match t.findRightmostLeaf with
    | some pid =>
      match t.getPage pid with
      | some (.leaf l) => ⟨some pid, l.keys.length⟩
      | _ => ⟨none, 0⟩
    | none => ⟨none, 0⟩

/-- The spec's split scenario tree: leaf max size 4 (internal max size
    also 4 — it plays no role before an internal split), keys 1..5 with
    value = key. -/
def scenarioTree (n : Nat) : Tree :=
  Tree.empty 4 4 |>.insertMany ((List.range n).map fun i => (i + 1, i + 1))

end BPT

namespace LockMgr

/-- A transaction in GROWING state under REPEATABLE_READ holding an IS
    table lock on table 7. -/
def txnGrowIS : Txn := ⟨1, .GROWING, .REPEATABLE_READ, [], [], [7], [], [], [], []⟩

/-- Table 7's queue: transaction 1 holds IS granted, transaction 2 has an
    ungranted S request and owns the in-progress upgrade marker. -/
def qUpgradeBusy : LockRequestQueue := ⟨[⟨0, 1, .IS, true⟩, ⟨1, 2, .S, false⟩], some 2⟩

/-- A transaction in SHRINKING state under REPEATABLE_READ holding an S
    table lock on table 7. -/
def txnShrinkS : Txn := ⟨1, .SHRINKING, .REPEATABLE_READ, [7], [], [], [], [], [], []⟩

/-- Table 7's queue: transaction 1 holds S granted; no upgrade pending. -/
def qHeldS : LockRequestQueue := ⟨[⟨0, 1, .S, true⟩], none⟩

/-- A growing REPEATABLE_READ transaction holding X on table 7 and the X
    row lock on row (7, 1). -/
def txnHoldR1 : Txn := ⟨0, .GROWING, .REPEATABLE_READ, [], [7], [], [], [], [(7, 1)], []⟩

/-- The deadlocked lock-table state of the spec's scenario 6: transaction
    0 holds X on row (7, 1) and waits for X on row (7, 2); transaction 1
    holds X on row (7, 2) and waits for X on row (7, 1).  Both
    transactions are GROWING. -/
def deadlockState : LMState :=
  ⟨[],
   [((7, 1), ⟨[⟨0, 0, .X, true⟩, ⟨1, 1, .X, false⟩], none⟩),
    ((7, 2), ⟨[⟨2, 1, .X, true⟩, ⟨3, 0, .X, false⟩], none⟩)],
   [(0, .GROWING), (1, .GROWING)]⟩

/-- An ungranted IS request by transaction 3, queued behind a granted IS
    request of transaction 1 and an earlier ungranted IS request of
    transaction 2 — every mode in the queue is compatible with IS. -/
def reqThirdIS : LockRequest := ⟨2, 3, .IS, false⟩

/-- The queue holding `reqThirdIS` behind a compatible granted request and
    a compatible earlier waiter. -/
def qCompatWaiters : List LockRequest := [⟨0, 1, .IS, true⟩, ⟨1, 2, .IS, false⟩, reqThirdIS]

end LockMgr

namespace LRUK

/-- The replacer of the spec's scenario just before the first `Evict`:
    `k = 2`, accesses `0, 1, 2, 0` recorded, all three frames evictable.
    Frame 0 reached two accesses and sits in the old list; frames 2 and 1
    share the young list with 1 the older. -/
def replacerBeforeEvict : Replacer :=
  ⟨3, 2, 3, [2, 1], [0], [(0, 2), (1, 1), (2, 1)], [(0, true), (1, true), (2, true)]⟩

/-- The same replacer after evicting frame 1. -/
def replacerAfterEvict : Replacer :=
  ⟨3, 2, 2, [2], [0], [(0, 2), (1, 0), (2, 1)], [(0, true), (1, false), (2, true)]⟩

end LRUK

/-! ## Helper lemmas -/

/-- A successful `find?` splits the list at the found element, with the
    predicate false on everything before it. -/
theorem find?_split {α : Type} (p : α → Bool) :
    ∀ (l : List α) (a : α), l.find? p = some a →
      ∃ pre post, l = pre ++ a :: post ∧ p a = true ∧ ∀ x ∈ pre, p x = false := by
  intro l
  induction l with
  | nil => intro a h; simp [List.find?] at h
  | cons x xs ih =>
    intro a h
    rw [List.find?] at h
    by_cases hx : p x
    · rw [hx] at h
      simp at h
      exact ⟨[], xs, by simp [h], h ▸ hx, by simp⟩
    · rw [Bool.not_eq_true] at hx
      rw [hx] at h
      obtain ⟨pre, post, hsplit, hpa, hpre⟩ := ih a h
      refine ⟨x :: pre, post, by simp [hsplit], hpa, ?_⟩
      intro y hy
      rcases List.mem_cons.mp hy with h1 | h2
      · exact h1 ▸ hx
      · exact hpre y h2

/-- A successful `find?` on the reversed list splits the original list at
    the found element, with the predicate false on everything after it
    (the element is the last one satisfying the predicate). -/
theorem reverse_find?_split {α : Type} (p : α → Bool) (l : List α) (a : α)
    (h : l.reverse.find? p = some a) :
    ∃ pre post, l = pre ++ a :: post ∧ p a = true ∧ ∀ x ∈ post, p x = false := by
  obtain ⟨pre, post, hsplit, hpa, hpre⟩ := find?_split p l.reverse a h
  refine ⟨post.reverse, pre.reverse, ?_, hpa, ?_⟩
  · have : l.reverse.reverse = (pre ++ a :: post).reverse := by rw [hsplit]
    simpa using this
  · intro x hx
    exact hpre x (List.mem_reverse.mp hx)

namespace LRUK

/-- Looking a key up past a non-matching head entry. -/
theorem alGetD_cons_ne (p : Int × Nat) (l : List (Int × Nat)) (k : Int)
    (h : (p.1 == k) = false) : alGetD (p :: l) k = alGetD l k := by
  unfold alGetD
  rw [List.find?_cons_of_neg _ (by simp [h])]

/-- Updating then reading the same key in the `Nat`-valued map. -/
theorem alGetD_alSetN_self (m : List (Int × Nat)) (k : Int) (v : Nat) :
    alGetD (alSetN m k v) k = v := by
  induction m with
  | nil => simp [alSetN, alGetD, List.find?]
  | cons p rest ih =>
    simp only [alSetN]
    by_cases hp : (p.1 == k) = true
    · rw [if_pos hp]
      simp [alGetD, List.find?]
    · rw [if_neg (by simp [hp])]
      rw [alGetD_cons_ne p _ k (by simpa using hp)]
      exact ih

/-- Looking a key up past a non-matching head entry (`Bool` map). -/
theorem alGetB_cons_ne (p : Int × Bool) (l : List (Int × Bool)) (k : Int)
    (h : (p.1 == k) = false) : alGetB (p :: l) k = alGetB l k := by
  unfold alGetB
  rw [List.find?_cons_of_neg _ (by simp [h])]

/-- Updating then reading the same key in the `Bool`-valued map. -/
theorem alGetB_alSetB_self (m : List (Int × Bool)) (k : Int) (v : Bool) :
    alGetB (alSetB m k v) k = v := by
  induction m with
  | nil => simp [alSetB, alGetB, List.find?]
  | cons p rest ih =>
    simp only [alSetB]
    by_cases hp : (p.1 == k) = true
    · rw [if_pos hp]
      simp [alGetB, List.find?]
    · rw [if_neg (by simp [hp])]
      rw [alGetB_cons_ne p _ k (by simpa using hp)]
      exact ih

end LRUK

namespace BPT

/-- `find?` over the in-place update of `setPage` lands on the written
    pair when the page was present. -/
theorem find?_map_update (pid : PageId) (n : BNode) :
    ∀ ps : List (PageId × BNode),
      (ps.find? (fun p => p.1 == pid)).isSome = true →
      ((ps.map fun p => if p.1 == pid then (pid, n) else p).find?
        (fun p => p.1 == pid)) = some (pid, n) := by
  intro ps
  induction ps with
  | nil => simp [List.find?]
  | cons q rest ih =>
    intro h
    by_cases hq : (q.1 == pid) = true
    · simp only [List.map_cons, if_pos hq]
      rw [@List.find?_cons_of_pos _ (fun p : PageId × BNode => p.1 == pid) (pid, n) _
        (beq_self_eq_true pid)]
    · simp only [List.map_cons, if_neg hq]
      rw [@List.find?_cons_of_neg _ (fun p : PageId × BNode => p.1 == pid) q _ hq]
      apply ih
      rw [@List.find?_cons_of_neg _ (fun p : PageId × BNode => p.1 == pid) q _ hq] at h
      exact h

/-- `find?` over the append of `setPage` lands on the appended pair when
    the page was absent. -/
theorem find?_append_new (pid : PageId) (n : BNode) :
    ∀ ps : List (PageId × BNode),
      ps.find? (fun p => p.1 == pid) = none →
      ((ps ++ [(pid, n)]).find? (fun p => p.1 == pid)) = some (pid, n) := by
  intro ps
  induction ps with
  | nil => simp [List.find?]
  | cons q rest ih =>
    intro h
    by_cases hq : (q.1 == pid) = true
    · rw [@List.find?_cons_of_pos _ (fun p : PageId × BNode => p.1 == pid) q _ hq] at h
      simp at h
    · rw [@List.find?_cons_of_neg _ (fun p : PageId × BNode => p.1 == pid) q _ hq] at h
      rw [List.cons_append,
        @List.find?_cons_of_neg _ (fun p : PageId × BNode => p.1 == pid) q _ hq]
      exact ih h

/-- Reading back the page just written. -/
theorem getPage_setPage_self (t : Tree) (pid : PageId) (n : BNode) :
    (t.setPage pid n).getPage pid = some n := by
  simp only [Tree.setPage, Tree.getPage]
  by_cases h : (t.pages.find? (fun p => p.1 == pid)).isSome = true
  · rw [if_pos h]
    simp only
    rw [find?_map_update pid n t.pages h]
    rfl
  · rw [if_neg h]
    simp only
    rw [find?_append_new pid n t.pages (by
      cases hf : t.pages.find? (fun p => p.1 == pid) with
      | none => rfl
      | some x => rw [hf] at h; simp at h)]
    rfl

/-- `KeyIndex` never exceeds the pair count. -/
theorem keyIndex_le (l : LeafNode) (k : Nat) : l.keyIndex k ≤ l.keys.length := by
  simpa [LeafNode.keyIndex] using
    (List.takeWhile_prefix (l := l.keys) (fun p => decide (p.1 < k))).length_le

/-- `RemoveAndDeleteRecord` returns the new pair count of the page it
    returns. -/
theorem removeRecord_snd (l : LeafNode) (k : Nat) :
    (l.removeRecord k).2 = (l.removeRecord k).1.keys.length := by
  simp only [LeafNode.removeRecord]
  by_cases h1 : (l.keyIndex k == l.keys.length) = true
  · rw [if_pos h1]
  · rw [if_neg h1]
    by_cases h2 : ((l.keys.getD (l.keyIndex k) (0, 0)).1 != k) = true
    · rw [if_pos h2]
    · rw [if_neg h2]
      have hlt : l.keyIndex k < l.keys.length :=
        lt_of_le_of_ne (keyIndex_le l k) (by simpa using h1)
      simp only [List.length_append, List.length_take, List.length_drop]
      rw [Nat.min_eq_left (le_of_lt hlt)]
      omega

/-- `RemoveAndDeleteRecord` does not touch `max_size_`. -/
theorem removeRecord_maxSize (l : LeafNode) (k : Nat) :
    (l.removeRecord k).1.maxSize = l.maxSize := by
  simp only [LeafNode.removeRecord]
  by_cases h1 : (l.keyIndex k == l.keys.length) = true
  · rw [if_pos h1]
  · rw [if_neg h1]
    by_cases h2 : ((l.keys.getD (l.keyIndex k) (0, 0)).1 != k) = true
    · rw [if_pos h2]
    · rw [if_neg h2]

end BPT

/-! ## Lock manager theorems -/

namespace LockMgr

/-- C7 (amended): `GrantLock` grants a request exactly when the request
    sits in the queue with every request ahead of it granted and
    mode-compatible with it — equivalently, it is compatible with every
    already-granted request ahead of it and it is the FIRST ungranted
    request; an ungranted request ahead of it denies even when that
    waiter's mode is compatible. -/
theorem C7_grantLock_iff_first_compatible_waiter (req : LockRequest) (q : List LockRequest) :
    grantLock req q = true ↔
      ∃ pre r post, q = pre ++ r :: post ∧ r.tag = req.tag ∧ r.granted = false ∧
        ∀ x ∈ pre, x.granted = true ∧ grantCompat req.mode x.mode = true := by
  induction q with
  | nil =>
    simp only [grantLock]
    constructor
    · intro h; exact absurd h (by simp)
    · rintro ⟨pre, r, post, hsplit, -, -, -⟩
      exact absurd hsplit (by simp)
  | cons lr rest ih =>
    constructor
    · intro h
      simp only [grantLock] at h
      by_cases hg : lr.granted = true
      · rw [if_pos hg] at h
        by_cases hc : grantCompat req.mode lr.mode = true
        · rw [if_pos hc] at h
          obtain ⟨pre, r, post, hsplit, h1, h2, h3⟩ := ih.mp h
          refine ⟨lr :: pre, r, post, by rw [hsplit, List.cons_append], h1, h2, ?_⟩
          intro x hx
          rcases List.mem_cons.mp hx with hx1 | hx2
          · exact hx1 ▸ ⟨hg, hc⟩
          · exact h3 x hx2
        · rw [if_neg hc] at h
          exact absurd h (by simp)
      · rw [if_neg hg] at h
        by_cases ht : (lr.tag != req.tag) = true
        · rw [if_pos ht] at h
          exact absurd h (by simp)
        · rw [if_neg ht] at h
          refine ⟨[], lr, rest, by simp, by simpa using ht, by simpa using hg, by simp⟩
    · rintro ⟨pre, r, post, hsplit, h1, h2, h3⟩
      cases pre with
      | nil =>
        simp only [List.nil_append, List.cons.injEq] at hsplit
        obtain ⟨hlr, hrest⟩ := hsplit
        simp only [grantLock]
        rw [if_neg (by rw [hlr]; simp [h2])]
        rw [if_neg (by rw [hlr]; simp [h1])]
      | cons a pre1 =>
        simp only [List.cons_append, List.cons.injEq] at hsplit
        obtain ⟨ha, hrest⟩ := hsplit
        have h3a := h3 a (List.mem_cons_self a pre1)
        simp only [grantLock]
        rw [if_pos (ha ▸ h3a.1), if_pos (ha ▸ h3a.2)]
        exact ih.mpr ⟨pre1, r, post, hrest, h1, h2, fun x hx => h3 x (List.mem_cons_of_mem a hx)⟩

/-- C7 witness: the amended grant condition evaluated on a concrete
    queue — a request preceded only by a granted compatible request is
    granted. -/
theorem C7_grantLock_iff_witness :
    grantLock (⟨1, 2, .IS, false⟩ : LockRequest) [⟨0, 1, .IS, true⟩, ⟨1, 2, .IS, false⟩] = true ∧
    (∃ pre r post,
      ([⟨0, 1, .IS, true⟩, ⟨1, 2, .IS, false⟩] : List LockRequest) = pre ++ r :: post ∧
      r.tag = (⟨1, 2, .IS, false⟩ : LockRequest).tag ∧ r.granted = false ∧
      ∀ x ∈ pre, x.granted = true ∧
        grantCompat (⟨1, 2, .IS, false⟩ : LockRequest).mode x.mode = true) :=
  ⟨by decide,
   (C7_grantLock_iff_first_compatible_waiter ⟨1, 2, .IS, false⟩
     [⟨0, 1, .IS, true⟩, ⟨1, 2, .IS, false⟩]).mp (by decide)⟩

/-- C7 counterexample: `reqThirdIS` is compatible (per the matrix) with
    the granted request and with the earlier waiter's mode in
    `qCompatWaiters`, yet `GrantLock` denies it — refuting the claim that
    mode-compatibility with granted requests and earlier waiters suffices
    for a grant. -/
theorem C7_compatible_waiter_denied :
    grantLock reqThirdIS qCompatWaiters = false ∧
    (∀ x ∈ qCompatWaiters, grantCompat reqThirdIS.mode x.mode = true) ∧
    reqThirdIS ∈ qCompatWaiters := by decide

/-- C9 (amended): when the isolation-level gate passes, `LockTable` on a
    mode the transaction already has queued (the first request found for
    this transaction id has exactly this mode) returns true immediately
    and leaves the transaction — its state and all its lock sets — and
    the request queue unchanged. -/
theorem C9_lockTable_idempotent (txn : Txn) (m : LockMode) (oid : Nat)
    (q : LockRequestQueue) (newTag : Nat) (r : LockRequest)
    (hgate : tableGate txn.iso txn.state m = none)
    (hfind : q.requests.find? (fun x => x.txn_id == txn.id) = some r)
    (hmode : r.mode = m) :
    lockTable txn m oid q newTag = .ret true txn q := by
  simp only [lockTable, hgate, hfind]
  rw [if_pos (by simp [hmode])]

/-- C9 witness: a REPEATABLE_READ transaction in GROWING state re-requests
    the IS lock it already holds on table 7. -/
theorem C9_lockTable_idempotent_witness :
    tableGate txnGrowIS.iso txnGrowIS.state .IS = none ∧
    (⟨[⟨0, 1, .IS, true⟩], none⟩ : LockRequestQueue).requests.find?
      (fun x => x.txn_id == txnGrowIS.id) = some ⟨0, 1, .IS, true⟩ ∧
    lockTable txnGrowIS .IS 7 ⟨[⟨0, 1, .IS, true⟩], none⟩ 5 =
      .ret true txnGrowIS ⟨[⟨0, 1, .IS, true⟩], none⟩ :=
  ⟨by decide, by decide,
   C9_lockTable_idempotent txnGrowIS .IS 7 ⟨[⟨0, 1, .IS, true⟩], none⟩ 5
     ⟨0, 1, .IS, true⟩ (by decide) (by decide) rfl⟩

/-- C9 counterexample: the isolation gate runs before the idempotence
    check, so a SHRINKING transaction under REPEATABLE_READ that re-requests
    the very S lock it holds is set to ABORTED and thrown, not returned
    true with everything unchanged. -/
theorem C9_lockTable_idempotent_counterexample :
    lockTable txnShrinkS .S 7 qHeldS 5 =
      .thrown .LOCK_SHARED_ON_READ_UNCOMMITTED { txnShrinkS with state := .ABORTED } qHeldS ∧
    lockTable txnShrinkS .S 7 qHeldS 5 ≠ .ret true txnShrinkS qHeldS := by decide

/-- C2 (amended): a lock upgrade requested while the queue's in-progress
    upgrade marker is set aborts the requester (state ABORTED) and throws
    — with reason LOCK_SHARED_ON_READ_UNCOMMITTED on the table-lock path
    and reason UPGRADE_CONFLICT on the row-lock path. -/
theorem C2_upgrade_conflict_reasons :
    (∀ (txn : Txn) (m : LockMode) (oid : Nat) (q : LockRequestQueue) (newTag : Nat)
       (r : LockRequest) (u : Nat),
       tableGate txn.iso txn.state m = none →
       q.requests.find? (fun x => x.txn_id == txn.id) = some r →
       r.mode ≠ m → q.upgrading = some u →
       lockTable txn m oid q newTag =
         .thrown .LOCK_SHARED_ON_READ_UNCOMMITTED { txn with state := .ABORTED } q) ∧
    (∀ (txn : Txn) (m : LockMode) (oid rid : Nat) (q : LockRequestQueue) (newTag : Nat)
       (r : LockRequest) (u : Nat),
       (m = .S ∨ m = .X) →
       rowGate txn.iso txn.state m = none →
       (m = .X → (txn.exclusiveTableLockSet.contains oid ||
                  txn.intentionExclusiveTableLockSet.contains oid ||
                  txn.sharedIntentionExclusiveTableLockSet.contains oid) = true) →
       q.requests.find? (fun x => x.txn_id == txn.id) = some r →
       r.mode ≠ m → q.upgrading = some u →
       lockRow txn m oid rid q newTag =
         .thrown .UPGRADE_CONFLICT { txn with state := .ABORTED } q) := by
  constructor
  · intro txn m oid q newTag r u hgate hfind hmode hup
    simp only [lockTable, hgate, hfind]
    rw [if_neg (by simp [hmode])]
    rw [if_pos (by simp [hup])]
  · intro txn m oid rid q newTag r u hm hgate hx hfind hmode hup
    rcases hm with hs | hx2
    · subst hs
      simp only [lockRow]
      rw [if_neg (by decide)]
      simp only [hgate]
      rw [if_neg (by simp)]
      simp only [hfind]
      rw [if_neg (by simp [hmode])]
      rw [if_pos (by simp [hup])]
    · subst hx2
      simp only [lockRow]
      rw [if_neg (by decide)]
      simp only [hgate]
      rw [if_neg (by rw [hx rfl]; decide)]
      simp only [hfind]
      rw [if_neg (by simp [hmode])]
      rw [if_pos (by simp [hup])]

/-- C2 witness: both upgrade-conflict paths at concrete inputs — txn 1
    upgrades IS→S on table 7 while txn 2's upgrade is pending (thrown with
    the read-uncommitted reason), and a growing transaction holding X on
    the table upgrades S→X on a row whose queue has a pending upgrade
    (thrown with UPGRADE_CONFLICT). -/
theorem C2_upgrade_conflict_reasons_witness :
    lockTable txnGrowIS .S 7 qUpgradeBusy 5 =
      .thrown .LOCK_SHARED_ON_READ_UNCOMMITTED { txnGrowIS with state := .ABORTED }
        qUpgradeBusy ∧
    lockRow txnHoldR1 .X 7 1 ⟨[⟨0, 0, .S, true⟩], some 9⟩ 5 =
      .thrown .UPGRADE_CONFLICT { txnHoldR1 with state := .ABORTED } ⟨[⟨0, 0, .S, true⟩], some 9⟩ :=
  ⟨C2_upgrade_conflict_reasons.1 txnGrowIS .S 7 qUpgradeBusy 5 ⟨0, 1, .IS, true⟩ 2
     (by decide) (by decide) (by decide) (by decide),
   C2_upgrade_conflict_reasons.2 txnHoldR1 .X 7 1 ⟨[⟨0, 0, .S, true⟩], some 9⟩ 5
     ⟨0, 0, .S, true⟩ 9 (Or.inr rfl) (by decide) (fun _ => by decide) (by decide)
     (by decide) (by decide)⟩

/-- C2 counterexample: on the table-lock path the upgrade conflict is
    thrown with reason LOCK_SHARED_ON_READ_UNCOMMITTED, not
    UPGRADE_CONFLICT as the claim states. -/
theorem C2_table_upgrade_reason_counterexample :
    lockTable txnGrowIS .S 7 qUpgradeBusy 5 =
      .thrown .LOCK_SHARED_ON_READ_UNCOMMITTED { txnGrowIS with state := .ABORTED }
        qUpgradeBusy ∧
    AbortReason.LOCK_SHARED_ON_READ_UNCOMMITTED ≠ AbortReason.UPGRADE_CONFLICT := by decide

/-- C1: the deadlock-detection thread body cited by the claim is an empty
    `TODO(students)` block, so on `deadlockState` — whose wait-for graph
    has the two-cycle 0 ⇄ 1 — one full detection interval changes
    nothing: no transaction becomes ABORTED and no queue is touched. -/
theorem C1_cycle_detection_interval_noop :
    (0, 1) ∈ waitForEdges deadlockState ∧
    (1, 0) ∈ waitForEdges deadlockState ∧
    runCycleDetectionInterval deadlockState = deadlockState ∧
    (runCycleDetectionInterval deadlockState).txnStates =
      [(0, .GROWING), (1, .GROWING)] := by decide

end LockMgr

/-! ## LRU-K replacer theorems -/

namespace LRUK

/-- C8: the spec's eviction scenario returns frames 1 (`B`), 2 (`C`),
    0 (`A`) in that order; and in general a successful `Evict` picks an
    evictable frame, zeroes its access count, clears its evictable flag,
    decrements the evictable counter, and the frame is the oldest
    evictable one of the young list (everything behind it in FIFO order is
    non-evictable) — or, when no young frame is evictable, the oldest
    evictable one of the old list (everything with an older most-recent
    access is non-evictable). -/
theorem C8_evict_oldest_young_first :
    lrukScenario = some (1, 2, 0) ∧
    ∀ (s : Replacer) (f : Int) (s1 : Replacer), evict s = some (f, s1) →
      alGetB s.is_evictable f = true ∧
      alGetD s1.access_count f = 0 ∧
      alGetB s1.is_evictable f = false ∧
      s1.curr_size = s.curr_size - 1 ∧
      ((∃ pre post, s.young_list = pre ++ f :: post ∧
          ∀ x ∈ post, alGetB s.is_evictable x = false) ∨
       ((∀ x ∈ s.young_list, alGetB s.is_evictable x = false) ∧
        ∃ pre post, s.old_list = pre ++ f :: post ∧
          ∀ x ∈ post, alGetB s.is_evictable x = false)) := by
  refine ⟨by decide, ?_⟩
  intro s f s1 h
  unfold evict at h
  by_cases h0 : s.curr_size = 0
  · rw [if_pos h0] at h
    exact absurd h (by simp)
  · rw [if_neg h0] at h
    cases hy : s.young_list.reverse.find? (fun g => alGetB s.is_evictable g) with
    | some g =>
      rw [hy] at h
      rw [Option.some.injEq, Prod.mk.injEq] at h
      obtain ⟨hgf, hs1⟩ := h
      subst hgf
      subst hs1
      refine ⟨List.find?_some hy, alGetD_alSetN_self _ _ _, alGetB_alSetB_self _ _ _, rfl, ?_⟩
      left
      obtain ⟨pre, post, hsplit, -, hpost⟩ :=
        reverse_find?_split (fun x => alGetB s.is_evictable x) s.young_list g hy
      exact ⟨pre, post, hsplit, hpost⟩
    | none =>
      rw [hy] at h
      cases ho : s.old_list.reverse.find? (fun g => alGetB s.is_evictable g) with
      | some g =>
        rw [ho] at h
        rw [Option.some.injEq, Prod.mk.injEq] at h
        obtain ⟨hgf, hs1⟩ := h
        subst hgf
        subst hs1
        refine ⟨List.find?_some ho, alGetD_alSetN_self _ _ _, alGetB_alSetB_self _ _ _, rfl, ?_⟩
        right
        have hyoung : ∀ x ∈ s.young_list, alGetB s.is_evictable x = false := by
          intro x hx
          have hnone := List.find?_eq_none.mp hy x (List.mem_reverse.mpr hx)
          simpa using hnone
        obtain ⟨pre, post, hsplit, -, hpost⟩ :=
          reverse_find?_split (fun x => alGetB s.is_evictable x) s.old_list g ho
        exact ⟨hyoung, pre, post, hsplit, hpost⟩
      | none =>
        rw [ho] at h
        exact absurd h (by simp)

/-- C8 witness: the first eviction of the scenario — frame 1, the older
    of the two evictable young frames, is picked and its bookkeeping
    reset. -/
theorem C8_evict_oldest_young_first_witness :
    evict replacerBeforeEvict = some (1, replacerAfterEvict) ∧
    (alGetB replacerBeforeEvict.is_evictable 1 = true ∧
     alGetD replacerAfterEvict.access_count 1 = 0 ∧
     alGetB replacerAfterEvict.is_evictable 1 = false ∧
     replacerAfterEvict.curr_size = replacerBeforeEvict.curr_size - 1 ∧
     ((∃ pre post, replacerBeforeEvict.young_list = pre ++ 1 :: post ∧
         ∀ x ∈ post, alGetB replacerBeforeEvict.is_evictable x = false) ∨
      ((∀ x ∈ replacerBeforeEvict.young_list,
          alGetB replacerBeforeEvict.is_evictable x = false) ∧
       ∃ pre post, replacerBeforeEvict.old_list = pre ++ 1 :: post ∧
         ∀ x ∈ post, alGetB replacerBeforeEvict.is_evictable x = false))) :=
  ⟨by decide,
   C8_evict_oldest_young_first.2 replacerBeforeEvict 1 replacerAfterEvict (by decide)⟩

/-- C6: the overflow guard of `RecordAccess` is
    `frame_id > replacer_size_`, so the out-of-range frame id 3 of a
    replacer of size 3 (valid range [0, 3)) is ACCEPTED and recorded
    rather than failing — and so is the negative id -1 — while 4 fails;
    in-range ids are accepted. -/
theorem C6_recordAccess_boundary_accepted :
    (recordAccess (Replacer.init 3 2) 3).isSome = true ∧
    (recordAccess (Replacer.init 3 2) (-1)).isSome = true ∧
    (recordAccess (Replacer.init 3 2) 2).isSome = true ∧
    recordAccess (Replacer.init 3 2) 4 = none := by decide

end LRUK

/-! ## Extendible hash table theorems -/

namespace EHT

/-- C5: in the variant whose `Bucket::Insert` scans by value
    (index_iterator.cpp), inserting key 1 with value 10 and then again
    with value 20 (bucket capacity 2, so the bucket is not full and no
    split runs) leaves the stored value at 10: the following `Find`
    returns the OLD value, not the just-inserted one.  The sibling
    variant's by-reference `Bucket::Insert` does update the stored
    pair. -/
theorem C5_duplicate_insert_keeps_stale_value :
    ((((HashTable.init 2).insert 1 10 8).bind fun t => t.insert 1 20 8).map
      fun t => t.findVal 1) = some (some 10) ∧
    some (10 : Nat) ≠ some 20 ∧
    ((Bucket.insertRefScan ⟨2, 0, [(1, 10)]⟩ 1 20).1).findVal 1 = some 20 := by decide

end EHT

/-! ## B+ tree theorems -/

namespace BPT

/-- C4 counterexample: with leaf max size 4 and keys 1,2,3,4 inserted,
    the tree has ALREADY split — the root is the internal page 3 over
    leaves [1,2] and [3,4] — refuting the claim that the single leaf
    first splits after key 5 is inserted (and that the split yields
    [3,4,5]). -/
theorem C4_split_already_after_fourth_key :
    (scenarioTree 4).root = some 3 ∧
    (scenarioTree 4).getPage 3 = some (.internal ⟨[(0, 1), (3, 2)], 4, none⟩) ∧
    (scenarioTree 4).getPage 1 = some (.leaf ⟨[(1, 1), (2, 2)], 4, some 3, some 2⟩) ∧
    (scenarioTree 4).getPage 2 = some (.leaf ⟨[(3, 3), (4, 4)], 4, some 3, none⟩) := by decide

/-- C4 (amended): the split happens when the leaf reaches max size 4,
    i.e. after key 4 is inserted, into [1,2] and [3,4]; after key 5 the
    final state nevertheless matches the claim — leaves [1,2] and
    [3,4,5], a root whose separator key is 3, and forward iteration
    yielding 1,2,3,4,5. -/
theorem C4_split_scenario_amended :
    (scenarioTree 5).root = some 3 ∧
    (scenarioTree 5).getPage 3 = some (.internal ⟨[(0, 1), (3, 2)], 4, none⟩) ∧
    (scenarioTree 5).getPage 1 = some (.leaf ⟨[(1, 1), (2, 2)], 4, some 3, some 2⟩) ∧
    (scenarioTree 5).getPage 2 = some (.leaf ⟨[(3, 3), (4, 4), (5, 5)], 4, some 3, none⟩) ∧
    (scenarioTree 5).iterKeys = [1, 2, 3, 4, 5] := by decide

/-- C3 (amended): when removing a key from its leaf leaves at least
    `GetMinSize() = ⌊M/2⌋` pairs there, `Remove` changes exactly that
    leaf: no redistribution, no coalescing, no deletion, no change to any
    other node — the result is the original tree with only the target
    page rewritten. -/
theorem C3_remove_no_rebalance (t : Tree) (k : Nat) (pid : PageId) (l : LeafNode)
    (hfind : t.findLeaf k = some pid)
    (hget : t.getPage pid = some (.leaf l))
    (hpresent : (l.removeRecord k).2 < l.keys.length)
    (hsafe : (l.removeRecord k).2 ≥ leafMinSize l.maxSize) :
    t.removeKey k = t.setPage pid (.leaf (l.removeRecord k).1) := by
  cases hr : t.root with
  | none =>
    rw [Tree.findLeaf, hr] at hfind
    exact absurd hfind (by simp)
  | some rootPid =>
    simp only [Tree.removeKey, hr, hfind, hget]
    rw [if_neg (by simp only [beq_iff_eq]; omega)]
    have hget1 : (t.setPage pid (.leaf (l.removeRecord k).1)).getPage pid =
        some (.leaf (l.removeRecord k).1) := getPage_setPage_self t pid _
    have hguard : (t.setPage pid (.leaf (l.removeRecord k).1)).sizeOf pid ≥
        (t.setPage pid (.leaf (l.removeRecord k).1)).minSizeOf pid := by
      simp only [Tree.sizeOf, Tree.minSizeOf, hget1]
      rw [removeRecord_maxSize]
      rw [← removeRecord_snd]
      exact hsafe
    rw [Tree.coalesceOrRedistribute]
    rw [if_pos hguard]
    simp

/-- C3 witness: removing key 5 from the 5-key scenario tree leaves its
    leaf with 2 ≥ ⌊4/2⌋ pairs, and the whole removal is exactly that
    page rewrite. -/
theorem C3_remove_no_rebalance_witness :
    (scenarioTree 5).findLeaf 5 = some 2 ∧
    (scenarioTree 5).getPage 2 = some (.leaf ⟨[(3, 3), (4, 4), (5, 5)], 4, some 3, none⟩) ∧
    ((⟨[(3, 3), (4, 4), (5, 5)], 4, some 3, none⟩ : LeafNode).removeRecord 5).2 < 3 ∧
    ((⟨[(3, 3), (4, 4), (5, 5)], 4, some 3, none⟩ : LeafNode).removeRecord 5).2 ≥
      leafMinSize 4 ∧
    (scenarioTree 5).removeKey 5 =
      (scenarioTree 5).setPage 2
        (.leaf ((⟨[(3, 3), (4, 4), (5, 5)], 4, some 3, none⟩ : LeafNode).removeRecord 5).1) :=
  ⟨by decide, by decide, by decide, by decide,
   C3_remove_no_rebalance (scenarioTree 5) 5 2 ⟨[(3, 3), (4, 4), (5, 5)], 4, some 3, none⟩
     (by decide) (by decide) (by decide) (by decide)⟩

/-- C3 counterexample: in the 4-key tree (leaves [1,2] and [3,4], M = 4),
    removing key 4 leaves its leaf with 1 pair — which satisfies the
    claim's bound `⌈M/2⌉ − 1 = 1` — yet the operation coalesces: the
    sibling leaf becomes [1,2,3], the root collapses to it, other pages
    are deleted.  The claim's "no change to any other node" is false at
    this input. -/
theorem C3_claim_threshold_counterexample :
    ((⟨[(3, 3), (4, 4)], 4, some 3, none⟩ : LeafNode).removeRecord 4).2 = 1 ∧
    (1 : Nat) ≥ (4 + 1) / 2 - 1 ∧
    (scenarioTree 4).getPage 1 = some (.leaf ⟨[(1, 1), (2, 2)], 4, some 3, some 2⟩) ∧
    ((scenarioTree 4).removeKey 4).getPage 1 =
      some (.leaf ⟨[(1, 1), (2, 2), (3, 3)], 4, none, none⟩) ∧
    ((scenarioTree 4).removeKey 4).root = some 1 ∧
    (scenarioTree 4).root = some 3 := by decide

/-- C10: iterator equality short-circuits on a null left leaf pointer —
    `a == b` is true whenever `a.leaf_` is null, regardless of `b`; hence
    on the empty tree `Begin() == End()` holds, and the null iterator
    compares equal to an iterator on a real leaf; the converse comparison
    dereferences the null pointer instead of returning a boolean, so the
    relation is not symmetric. -/
theorem C10_iterator_equality_asymmetric :
    (∀ (b : Iter) (i : Nat), iterEq ⟨none, i⟩ b = some true) ∧
    (Tree.empty 4 4).beginIter = ⟨none, 0⟩ ∧
    (Tree.empty 4 4).endIter = ⟨none, 0⟩ ∧
    iterEq (Tree.empty 4 4).beginIter (Tree.empty 4 4).endIter = some true ∧
    (scenarioTree 5).beginIter = ⟨some 1, 0⟩ ∧
    iterEq ⟨none, 0⟩ (scenarioTree 5).beginIter = some true ∧
    iterEq (scenarioTree 5).beginIter ⟨none, 0⟩ = none :=
  ⟨fun _ _ => rfl, by decide, by decide, by decide, by decide, by decide, by decide⟩

end BPT
